import Mathlib

/-
Verification development for the document-extracter repository (a resume
parsing application).  The repository ships a React frontend (App.jsx,
UploadZone.jsx, ResumeForm.jsx, PDFViewer.jsx, services/api.js) together
with orchestration scripts; the Python extraction backend itself is not
part of the checked-in sources, so the backend pipeline is modelled from
the design specification while the frontend is embedded directly from the
JavaScript sources.

All string manipulation used by the models is implemented here over
`List Char` with structural recursion so that every definition evaluates
by kernel reduction on concrete inputs.
-/

deriving instance DecidableEq for Except

namespace ResumeParser

/-! ## Character-list string primitives -/

/-- Split a list into groups at every element satisfying `p`; the
separators are dropped and empty groups are kept (mirrors the behaviour
of splitting a string on a separator character). -/
def splitWhen {α : Type} (p : α → Bool) : List α → List (List α)
  | [] => [[]]
  | c :: cs =>
    if p c then [] :: splitWhen p cs
    else
      match splitWhen p cs with
      | [] => [[c]]
      | g :: gs => (c :: g) :: gs

/-- Join groups with a separator list between consecutive groups. -/
def joinWith (sep : List Char) : List (List Char) → List Char
  | [] => []
  | [g] => g
  | g :: g₂ :: gs => g ++ sep ++ joinWith sep (g₂ :: gs)

/-- True when the second list starts with the first. -/
def startsWithList : List Char → List Char → Bool
  | [], _ => true
  | _ :: _, [] => false
  | p :: ps, c :: cs => p == c && startsWithList ps cs

/-- True when `pat` occurs as a contiguous run inside `l`
(the model of the JavaScript `String.prototype.includes`). -/
def hasSubList (pat : List Char) : List Char → Bool
  | [] => pat.isEmpty
  | c :: cs => startsWithList pat (c :: cs) || hasSubList pat cs

/-- Remove leading and trailing whitespace characters. -/
def trimChars (l : List Char) : List Char :=
  ((l.dropWhile Char.isWhitespace).reverse.dropWhile Char.isWhitespace).reverse

/-- Numeric value of a list of decimal digit characters. -/
def digitsVal (l : List Char) : Nat :=
  l.foldl (fun n c => n * 10 + (c.toNat - 48)) 0

/-! ### String-level wrappers -/

/-- Split a string at every occurrence of the character `c`. -/
def strSplitChar (c : Char) (s : String) : List String :=
  (splitWhen (fun d => d == c) s.data).map String.mk

/-- Join strings with a separator. -/
def strJoin (sep : String) (parts : List String) : String :=
  String.mk (joinWith sep.data (parts.map String.data))

/-- Leading/trailing-whitespace trimmed copy of a string. -/
def strTrim (s : String) : String := String.mk (trimChars s.data)

/-- Lower-cased copy of a string. -/
def strLower (s : String) : String := String.mk (s.data.map Char.toLower)

/-- True when `s` is empty. -/
def strIsEmpty (s : String) : Bool := s.data.isEmpty

/-- True when `pat` occurs inside `s`
(the model of the JavaScript `String.prototype.includes`). -/
def jsIncludes (s pat : String) : Bool := hasSubList pat.data s.data

/-- Whitespace-separated non-empty tokens of a string. -/
def wsTokens (s : String) : List String :=
  ((splitWhen Char.isWhitespace s.data).filter (fun g => !g.isEmpty)).map String.mk

/-- Parse a string of decimal digits; `none` if empty or non-digit. -/
def strToNat (s : String) : Option Nat :=
  if !s.data.isEmpty && s.data.all Char.isDigit then some (digitsVal s.data) else none

/-! ## TextNormalizer (modelled from the spec) -/

/-- True when the list starts with a lowercase letter. -/
def startsLower (l : List Char) : Bool :=
  match l with
  | c :: _ => c.isLower
  | [] => false

/-- Modelled from the spec: the TextNormalizer dehyphenation step of the
missing backend — a trailing hyphen followed by a line break is removed
and the lines joined when the following line starts lowercase. -/
def dehyph : List Char → List Char
  | [] => []
  | [c] => [c]
  | a :: b :: rest =>
    if a == '-' && b == '\n' && startsLower rest then dehyph rest
    else a :: dehyph (b :: rest)

/-- Modelled from the spec: per-line whitespace collapsing of the missing
backend TextNormalizer — runs of whitespace inside a line collapse to a
single space and the line is trimmed. -/
def collapseLine (l : List Char) : List Char :=
  joinWith [' '] ((splitWhen Char.isWhitespace l).filter (fun g => !g.isEmpty))

/-- Modelled from the spec: the missing backend TextNormalizer over
character lists — dehyphenate, then collapse whitespace per line while
preserving line breaks. -/
def normalizeChars (l : List Char) : List Char :=
  joinWith ['\n'] ((splitWhen (fun c => c == '\n') (dehyph l)).map collapseLine)

/-- Modelled from the spec: the missing backend TextNormalizer. -/
def normalizeText (s : String) : String := String.mk (normalizeChars s.data)

/-- True when the string contains at least one alphabetic character. -/
def hasAlpha (s : String) : Bool := s.data.any Char.isAlpha

/-! ## Data model (spec section 3 and the JSON schema of section 6) -/

structure ContactInfo where
  first_name : String
  last_name : String
  email : String
  phone : String
  city : String
  state : String
deriving DecidableEq

structure EducationEntry where
  degree : String
  field_of_study : String
  institution : String
  graduation_year : String
deriving DecidableEq

structure ExperienceEntry where
  job_title : String
  company : String
  start_date : String
  end_date : Option String
  description : List String
deriving DecidableEq

inductive Completeness
  | NONE
  | PARTIAL
  | FULL
deriving DecidableEq

inductive WarningKind
  | SECTION_DETECTION_FAILURE
  | FIELD_EXTRACTION_GAP (fieldName : String)
  | LLM_TIMEOUT
  | LLM_MALFORMED_RESPONSE
deriving DecidableEq

structure ParseResult where
  contact : ContactInfo
  education : List EducationEntry
  work_experience : List ExperienceEntry
  skills : List String
  confidences : List (String × ℚ)
  extraction_method : String
  warnings : List WarningKind
  completeness : Completeness
deriving DecidableEq

inductive PipelineError
  | INVALID_INPUT
  | NOT_A_RESUME
deriving DecidableEq

inductive Method
  | regex
  | llm
deriving DecidableEq

inductive Stage
  | NORMALIZING
  | SECTION_DETECTION
  | CONTACT_EXTRACTION
  | EDUCATION_EXTRACTION
  | EXPERIENCE_EXTRACTION
  | SKILLS_EXTRACTION
  | SCORING
  | LLM_EXTRACTING
  | VALIDATING
deriving DecidableEq

inductive SectionType
  | CONTACT
  | EDUCATION
  | EXPERIENCE
  | SKILLS
  | OTHER
deriving DecidableEq

/-! ## SectionDetector (modelled from the spec) -/

/-- Modelled from the spec: the heading table of the missing backend
SectionDetector — case-insensitive match of a whole line against common
section-heading synonyms. -/
def headingFor (line : String) : Option SectionType :=
  let l := strLower (strTrim line)
  if l = "education" || l = "academic background" || l = "academics" then
    some SectionType.EDUCATION
  else if l = "experience" || l = "work experience" || l = "employment history" ||
      l = "work history" || l = "professional experience" then
    some SectionType.EXPERIENCE
  else if l = "skills" || l = "technical skills" || l = "core competencies" then
    some SectionType.SKILLS
  else if l = "contact" || l = "contact information" then
    some SectionType.CONTACT
  else none

/-- Lines of a text, split at newline characters. -/
def textLines (s : String) : List String := strSplitChar '\n' s

def splitSectionsAux (cur : SectionType) (acc : List String) :
    List String → List (SectionType × List String)
  | [] => [(cur, acc.reverse)]
  | l :: ls =>
    match headingFor l with
    | some t => (cur, acc.reverse) :: splitSectionsAux t [] ls
    | none => splitSectionsAux cur (l :: acc) ls

/-- Modelled from the spec: the missing backend SectionDetector — a
matched heading line starts a new section, lines before the first heading
belong to CONTACT, and if no heading is found anywhere a single OTHER
section spanning the document is emitted with a
SECTION_DETECTION_FAILURE warning. -/
def detectSections (text : String) : List (SectionType × List String) × List WarningKind :=
  let ls := textLines text
  if ls.any (fun l => (headingFor l).isSome) then
    (splitSectionsAux SectionType.CONTACT [] ls, [])
  else
    ([(SectionType.OTHER, ls)], [WarningKind.SECTION_DETECTION_FAILURE])

/-- Concatenated text of all sections of a given type. -/
def sectionTextOf (t : SectionType) (secs : List (SectionType × List String)) : String :=
  strJoin "\n" ((secs.filter (fun p => decide (p.1 = t))).map (fun p => strJoin "\n" p.2))

/-! ## ContactExtractor (modelled from the spec) -/

/-- Modelled from the spec: the RFC-lite email pattern of the missing
backend ContactExtractor — one at-sign, non-empty local part, dotted
non-empty domain segments. -/
def isEmailToken (t : String) : Bool :=
  match strSplitChar '@' t with
  | [lp, dom] =>
    let segs := strSplitChar '.' dom
    !lp.data.isEmpty && decide (2 ≤ segs.length) && segs.all (fun seg => !seg.data.isEmpty)
  | _ => false

def digitCount (t : String) : Nat := (t.data.filter Char.isDigit).length

/-- Modelled from the spec: the loose phone pattern of the missing
backend ContactExtractor — a token of at least seven digits drawn from
digits and common phone punctuation. -/
def isPhoneToken (t : String) : Bool :=
  decide (7 ≤ digitCount t) &&
    t.data.all (fun c => c.isDigit || c == '-' || c == '(' || c == ')' || c == '+' || c == '.')

def extractEmail (text : String) : String :=
  ((wsTokens text).find? isEmailToken).getD ""

def extractPhone (text : String) : String :=
  ((wsTokens text).find? isPhoneToken).getD ""

/-- True when the word starts with an uppercase letter. -/
def isCapWord (w : String) : Bool :=
  match w.data with
  | c :: _ => c.isUpper
  | [] => false

/-- Modelled from the spec: the name heuristic of the missing backend
ContactExtractor — first of the first three non-empty lines without
email/phone tokens that consists of one to three capitalized words. -/
def extractName (text : String) : String × String :=
  let cands := ((textLines text).map strTrim).filter
    (fun l => !l.data.isEmpty && !(wsTokens l).any (fun t => isEmailToken t || isPhoneToken t))
  match (cands.take 3).find? (fun l =>
      decide (1 ≤ (wsTokens l).length) && decide ((wsTokens l).length ≤ 3) &&
        (wsTokens l).all isCapWord) with
  | some l =>
    let ws := wsTokens l
    ((ws.head?).getD "", if 2 ≤ ws.length then (ws.getLast?).getD "" else "")
  | none => ("", "")

/-- Modelled from the spec: the trailing City, ST pattern of the missing
backend ContactExtractor. -/
def extractCityState (text : String) : String × String :=
  match (textLines text).findSome? (fun l =>
      match (strSplitChar ',' l).map strTrim with
      | [city, st] =>
        if st.data.length == 2 && st.data.all Char.isUpper && !city.data.isEmpty then
          some (city, st)
        else none
      | _ => none) with
  | some p => p
  | none => ("", "")

/-- Modelled from the spec: the missing backend ContactExtractor — each
field is extracted independently and is optional. -/
def extractContact (text : String) : ContactInfo :=
  let n := extractName text
  let cs := extractCityState text
  { first_name := n.1, last_name := n.2, email := extractEmail text,
    phone := extractPhone text, city := cs.1, state := cs.2 }

/-! ## EducationExtractor (modelled from the spec) -/

def degreeKeywords : List String :=
  ["bachelor", "bachelors", "b.s.", "bs", "b.a.", "ba", "bsc",
   "master", "masters", "m.s.", "ms", "m.a.", "ma", "msc", "mba",
   "phd", "ph.d.", "doctorate", "associate", "associates"]

def stripCommas (t : String) : String := String.mk (t.data.filter (fun c => c != ','))

/-- Comma-separated trimmed segments across the lines of an entry. -/
def commaSegs (entry : List String) : List String :=
  (entry.map (fun l => (strSplitChar ',' l).map strTrim)).flatten

/-- Drop a leading connective before a field-of-study phrase. -/
def dropInOf (toks : List String) : List String :=
  match toks with
  | t :: rest => if strLower t = "in" || strLower t = "of" then rest else toks
  | [] => []

def isYearString (s : String) : Bool := s.data.length == 4 && s.data.all Char.isDigit

/-- Modelled from the spec: degree keyword match of the missing backend
EducationExtractor — a segment whose first word is a degree keyword
yields the degree and the adjacent phrase as field of study. -/
def segDegree (seg : String) : Option (String × String) :=
  match wsTokens seg with
  | d :: rest =>
    if degreeKeywords.contains (strLower (stripCommas d)) then
      some (d, strJoin " " (dropInOf rest))
    else none
  | [] => none

/-- Modelled from the spec: institution heuristic of the missing backend
EducationExtractor — a capitalized segment that is neither a degree
phrase nor a year. -/
def segIsInstitution (seg : String) : Bool :=
  !seg.data.isEmpty && (segDegree seg).isNone && !isYearString seg && isCapWord seg

/-- First maximal run of exactly four decimal digits in the text. -/
def findFourDigitYear (s : String) : Option String :=
  ((splitWhen (fun c => !c.isDigit) s.data).map String.mk).find? isYearString

def yearInRange (currentYear y : Nat) : Bool :=
  decide (1950 ≤ y) && decide (y ≤ currentYear + 10)

/-- Modelled from the spec: graduation_year extraction of the missing
backend EducationExtractor — a matched 4-digit year is accepted only in
the range 1950 to currentYear + 10; out-of-range matches leave the field
empty and record a warning, and the value is never altered. -/
def extractGraduationYear (currentYear : Nat) (entryText : String) :
    String × List WarningKind :=
  match findFourDigitYear entryText with
  | none => ("", [])
  | some ystr =>
    if yearInRange currentYear ((strToNat ystr).getD 0) then (ystr, [])
    else ("", [WarningKind.FIELD_EXTRACTION_GAP "graduation_year"])

/-- Modelled from the spec: per-entry extraction of the missing backend
EducationExtractor. -/
def extractEducationEntry (currentYear : Nat) (entry : List String) :
    EducationEntry × List WarningKind :=
  let segs := commaSegs entry
  let gyw := extractGraduationYear currentYear (strJoin "\n" entry)
  let df := (segs.findSome? segDegree).getD ("", "")
  let inst := (segs.find? segIsInstitution).getD ""
  ({ degree := df.1, field_of_study := df.2, institution := inst,
     graduation_year := gyw.1 }, gyw.2)

/-- Groups of consecutive non-blank lines, split at blank lines. -/
def splitEntries (ls : List String) : List (List String) :=
  (splitWhen (fun l => (strTrim l).data.isEmpty) ls).filter (fun g => !g.isEmpty)

/-- Modelled from the spec: the missing backend EducationExtractor —
entries split at blank lines, each extracted independently, warnings
accumulated. -/
def extractEducation (currentYear : Nat) (text : String) :
    List EducationEntry × List WarningKind :=
  if (strTrim text).data.isEmpty then ([], [])
  else
    let rs := (splitEntries (textLines text)).map (extractEducationEntry currentYear)
    (rs.map Prod.fst, (rs.map Prod.snd).flatten)

/-! ## ExperienceExtractor (modelled from the spec) -/

def monthNum (m : String) : Option Nat :=
  let k := strLower (stripCommas m)
  if k = "jan" || k = "january" then some 1
  else if k = "feb" || k = "february" then some 2
  else if k = "mar" || k = "march" then some 3
  else if k = "apr" || k = "april" then some 4
  else if k = "may" then some 5
  else if k = "jun" || k = "june" then some 6
  else if k = "jul" || k = "july" then some 7
  else if k = "aug" || k = "august" then some 8
  else if k = "sep" || k = "sept" || k = "september" then some 9
  else if k = "oct" || k = "october" then some 10
  else if k = "nov" || k = "november" then some 11
  else if k = "dec" || k = "december" then some 12
  else none

def monthStr (n : Nat) : String :=
  match n with
  | 1 => "01" | 2 => "02" | 3 => "03" | 4 => "04" | 5 => "05" | 6 => "06"
  | 7 => "07" | 8 => "08" | 9 => "09" | 10 => "10" | 11 => "11" | 12 => "12"
  | _ => ""

/-- Modelled from the spec: canonical year-month form of a single date
expression of the missing backend ExperienceExtractor — accepts
"Month YYYY" and "MM/YYYY". -/
def canonDate (s : String) : Option String :=
  match wsTokens (strTrim s) with
  | [m, y] =>
    match monthNum m with
    | some mn => if isYearString y then some (y ++ "-" ++ monthStr mn) else none
    | none => none
  | [one] =>
    match strSplitChar '/' one with
    | [mm, yy] =>
      if !mm.data.isEmpty && mm.data.all Char.isDigit && isYearString yy then
        some (yy ++ "-" ++ (if mm.data.length == 1 then "0" ++ mm else mm))
      else none
    | _ => none
  | _ => none

/-- Split a character list at the first occurrence of a dash surrounded
by spaces. -/
def splitDashRange : List Char → Option (List Char × List Char)
  | [] => none
  | a :: rest =>
    if a == ' ' then
      match rest with
      | '-' :: ' ' :: tail => some ([], tail)
      | _ =>
        match splitDashRange rest with
        | some p => some (a :: p.1, p.2)
        | none => none
    else
      match splitDashRange rest with
      | some p => some (a :: p.1, p.2)
      | none => none

def isPresentWord (s : String) : Bool :=
  let k := strLower (strTrim s)
  k = "present" || k = "current"

/-- Modelled from the spec: date-range recognition of the missing
backend ExperienceExtractor — "A - B" where A is the trailing date
expression of the left side and B is either a date expression or a
case-insensitive present/current marker (normalized to a null end). -/
def parseDateRange (line : String) : Option (String × Option String) :=
  match splitDashRange line.data with
  | none => none
  | some p =>
    let leftSeg := strTrim (((strSplitChar ',' (String.mk p.1)).getLast?).getD "")
    let rightStr := String.mk p.2
    match canonDate leftSeg with
    | none => none
    | some sd =>
      if isPresentWord rightStr then some (sd, none)
      else
        match canonDate rightStr with
        | some ed => some (sd, some ed)
        | none => none

def corpSuffixes : List String :=
  ["Inc", "Inc.", "LLC", "Corp", "Corp.", "Ltd", "Ltd.", "Co.", "GmbH"]

/-- Remove a leading bullet marker from a line. -/
def stripBullet (l : String) : String :=
  let t := strTrim l
  match t.data with
  | '-' :: ' ' :: rest => strTrim (String.mk rest)
  | '•' :: ' ' :: rest => strTrim (String.mk rest)
  | '*' :: ' ' :: rest => strTrim (String.mk rest)
  | _ => t

/-- Modelled from the spec: per-entry extraction of the missing backend
ExperienceExtractor — job title from the first line, company by the
corporate-suffix heuristic with the documented second-position default,
dates from the first recognized range, remaining lines as description. -/
def extractExperienceEntry (entry : List String) : ExperienceEntry :=
  let first := (entry.head?).getD ""
  let segs := (strSplitChar ',' first).map strTrim
  let jt := (segs.head?).getD ""
  let secondLine := strTrim ((entry.get? 1).getD "")
  let company :=
    match (segs.drop 1).find?
        (fun sg => corpSuffixes.any (fun suf => (wsTokens sg).contains suf)) with
    | some sg => sg
    | none => if (parseDateRange secondLine).isSome then "" else secondLine
  let dates :=
    match entry.findSome? parseDateRange with
    | some p => p
    | none => ("", none)
  let desc := ((entry.drop 1).map stripBullet).filter (fun l => !l.data.isEmpty)
  { job_title := jt, company := company, start_date := dates.1,
    end_date := dates.2, description := desc }

/-- Modelled from the spec: the missing backend ExperienceExtractor —
entries split at blank lines. -/
def extractExperience (text : String) : List ExperienceEntry :=
  if (strTrim text).data.isEmpty then []
  else (splitEntries (textLines text)).map extractExperienceEntry

/-! ## SkillsExtractor (modelled from the spec) -/

def isSkillSep (c : Char) : Bool := c == ',' || c == '\n' || c == '•' || c == ';'

def isBarePunct (t : String) : Bool := t.data.all (fun c => !c.isAlphanum)

/-- Modelled from the spec: tokenization of the missing backend
SkillsExtractor — split at commas, bullet markers and newlines, trim,
and drop empty or bare-punctuation tokens. -/
def tokenizeSkills (s : String) : List String :=
  ((splitWhen isSkillSep s.data).map (fun g => String.mk (trimChars g))).filter
    (fun t => !t.data.isEmpty && !isBarePunct t)

def lowerKey (s : String) : String := strLower s

def dedupeCIAux (seen : List String) : List String → List String
  | [] => []
  | t :: ts =>
    if lowerKey t ∈ seen then dedupeCIAux seen ts
    else t :: dedupeCIAux (lowerKey t :: seen) ts

/-- Case-insensitive deduplication keeping the first occurrence. -/
def dedupeCI (l : List String) : List String := dedupeCIAux [] l

/-- Modelled from the spec: the missing backend SkillsExtractor
(tokenize, filter, deduplicate case-insensitively keeping first-seen
casing; the optional canonicalization dictionary is omitted). -/
def skillsExtract (s : String) : List String := dedupeCI (tokenizeSkills s)

/-! ## ConfidenceScorer and ExtractionPipeline (modelled from the spec) -/

def contactHasAnyField (c : ContactInfo) : Bool :=
  !c.first_name.data.isEmpty || !c.last_name.data.isEmpty || !c.email.data.isEmpty ||
    !c.phone.data.isEmpty || !c.city.data.isEmpty || !c.state.data.isEmpty

/-- Modelled from the spec: the completeness count of the missing
backend ConfidenceScorer — how many of the four top-level categories
have at least one non-empty field or entry. -/
def categoriesPresent (contact : ContactInfo) (edu : List EducationEntry)
    (work : List ExperienceEntry) (skills : List String) : Nat :=
  (if contactHasAnyField contact then 1 else 0) + (if !edu.isEmpty then 1 else 0) +
    (if !work.isEmpty then 1 else 0) + (if !skills.isEmpty then 1 else 0)

/-- Modelled from the spec: 0 categories give NONE, 1 or 2 give
PARTIAL, 3 or 4 give FULL. -/
def classifyCount (n : Nat) : Completeness :=
  if n = 0 then Completeness.NONE
  else if n ≤ 2 then Completeness.PARTIAL
  else Completeness.FULL

/-- Modelled from the spec: fixed-tier per-field confidences of the
missing backend ConfidenceScorer (strict email 1.0, phone 0.9, name
heuristic 0.7, location 0.6, education 0.8). -/
def confidenceEntries (contact : ContactInfo) (edu : List EducationEntry) :
    List (String × ℚ) :=
  (if !contact.email.data.isEmpty then [("contact.email", (1 : ℚ))] else []) ++
    (if !contact.phone.data.isEmpty then [("contact.phone", (9 : ℚ)/10)] else []) ++
    (if !contact.first_name.data.isEmpty then [("contact.name", (7 : ℚ)/10)] else []) ++
    (if !contact.city.data.isEmpty then [("contact.location", (3 : ℚ)/5)] else []) ++
    (if !edu.isEmpty then [("education", (4 : ℚ)/5)] else [])

/-- Modelled from the spec: the NOT_A_RESUME signal test — a resume must
exhibit an email, a phone, or a recognized section heading. -/
def hasResumeSignal (normalized : String) : Bool :=
  (wsTokens normalized).any isEmailToken || (wsTokens normalized).any isPhoneToken ||
    (textLines normalized).any (fun l => (headingFor l).isSome)

/-- Modelled from the spec: the missing backend ExtractionPipeline
orchestrator.  `llmOut` stands for the validated structured output of
the LLM adapter, an external collaborator; the second component records
the stages that ran, with the per-category extractor stages refining the
EXTRACTING state of the spec. -/
def runPipeline (currentYear : Nat) (method : Method) (llmOut : ParseResult)
    (input : String) : Except PipelineError ParseResult × List Stage :=
  let normalized := normalizeText input
  if normalized.data.isEmpty || !hasAlpha normalized then
    (Except.error PipelineError.INVALID_INPUT, [Stage.NORMALIZING])
  else if !hasResumeSignal normalized then
    (Except.error PipelineError.NOT_A_RESUME, [Stage.NORMALIZING])
  else
    match method with
    | Method.llm =>
      (Except.ok { llmOut with extraction_method := "llm" },
       [Stage.NORMALIZING, Stage.LLM_EXTRACTING, Stage.VALIDATING])
    | Method.regex =>
      let sd := detectSections normalized
      let contactText :=
        let t := sectionTextOf SectionType.CONTACT sd.1
        if (strTrim t).data.isEmpty then sectionTextOf SectionType.OTHER sd.1 else t
      let contact := extractContact contactText
      let ew := extractEducation currentYear (sectionTextOf SectionType.EDUCATION sd.1)
      let work := extractExperience (sectionTextOf SectionType.EXPERIENCE sd.1)
      let skills := skillsExtract (sectionTextOf SectionType.SKILLS sd.1)
      (Except.ok
        { contact := contact, education := ew.1, work_experience := work,
          skills := skills, confidences := confidenceEntries contact ew.1,
          extraction_method := "regex", warnings := sd.2 ++ ew.2,
          completeness := classifyCount (categoriesPresent contact ew.1 work skills) },
       [Stage.NORMALIZING, Stage.SECTION_DETECTION, Stage.CONTACT_EXTRACTION,
        Stage.EDUCATION_EXTRACTION, Stage.EXPERIENCE_EXTRACTION,
        Stage.SKILLS_EXTRACTION, Stage.SCORING, Stage.VALIDATING])

/-! ## Frontend: services/api.js -/

/-- A browser File object; only the MIME type matters for the embedded
logic. -/
structure FileObj where
  name : String
  type : String
deriving DecidableEq

/-- A value appended to a FormData request body. -/
inductive FormValue
  | fileVal (f : FileObj)
  | strVal (s : String)
deriving DecidableEq

/-- The FormData body built by `parseResume` in services/api.js: the
function signature binds a single `file` parameter and appends only the
file to the request. -/
def parseResumeRequest (file : FileObj) : List (String × FormValue) :=
  [("file", FormValue.fileVal file)]

/-- The request actually transmitted when App.jsx calls
`parseResume(file, parsingMethod)`: JavaScript silently discards the
second argument because the `parseResume` declaration binds only `file`,
so the body is `parseResumeRequest file` regardless of `method`. -/
def appParseRequest (file : FileObj) (method : String) : List (String × FormValue) :=
  parseResumeRequest file

/-- The fallback applied to `error.response.data.detail || 'Unknown
error occurred'` in services/api.js. -/
def detailOrDefault (d : String) : String :=
  if d = "" then "Unknown error occurred" else d

/-- The status-code to message mapping of the catch block in
services/api.js `parseResume`. -/
def apiErrorMessage (status : Nat) (d : String) : String :=
  let detail := detailOrDefault d
  if status = 400 then "Invalid file: " ++ detail
  else if status = 413 then "File is too large. Maximum size is 10MB."
  else if status = 422 then detail
  else if status = 500 then "Server error while processing PDF. Please try again."
  else detail

/-! ## Frontend: App.jsx -/

/-- The per-category presence checks of `handleFileSelect` in App.jsx:
`hasContact` tests only first_name, email and phone. -/
def hasContactData (r : ParseResult) : Bool :=
  !r.contact.first_name.data.isEmpty || !r.contact.email.data.isEmpty ||
    !r.contact.phone.data.isEmpty

def hasEducationData (r : ParseResult) : Bool := !r.education.isEmpty

def hasExperienceData (r : ParseResult) : Bool := !r.work_experience.isEmpty

def hasSkillsData (r : ParseResult) : Bool := !r.skills.isEmpty

/-- `extractedCount` of `handleFileSelect` in App.jsx: the number of
`true` entries among the four category checks. -/
def extractedCount (r : ParseResult) : Nat :=
  ([hasContactData r, hasEducationData r, hasExperienceData r,
    hasSkillsData r].filter id).length

/-- The three toast branches of `handleFileSelect` in App.jsx as a
completeness classification: count 0 warns of no data (NONE), count
below 3 reports partial data (PARTIAL), anything else reports full
success (FULL). -/
def appCompleteness (r : ParseResult) : Completeness :=
  if extractedCount r = 0 then Completeness.NONE
  else if extractedCount r < 3 then Completeness.PARTIAL
  else Completeness.FULL

/-- The classification as worded by the claim: a category counts as
present when ANY of its fields is non-empty, including contact
last_name, city and state; this is the comparison definition following
the claim text, not the App.jsx code. -/
def claimedCount (r : ParseResult) : Nat :=
  categoriesPresent r.contact r.education r.work_experience r.skills

/-- Completeness as worded by the claim, for comparison with
`appCompleteness`. -/
def claimedCompleteness (r : ParseResult) : Completeness :=
  classifyCount (claimedCount r)

/-- The file / extracted-data part of the App.jsx component state. -/
structure AppPageState where
  pdfFile : Option FileObj
  extractedData : Option ParseResult
deriving DecidableEq

/-- The `err.message.includes` based title selection of the catch block
of `handleFileSelect` in App.jsx. -/
def errorTitleFor (msg : String) : String :=
  if jsIncludes msg "doesn\x27t appear to be a resume" ||
      jsIncludes msg "no extractable text" then "Invalid Resume"
  else if jsIncludes msg "Failed to parse PDF" ||
      jsIncludes msg "couldn\x27t extract data" then "Extraction Failed"
  else "PDF Parsing Failed"

/-- The catch block of `handleFileSelect` in App.jsx: whatever the
previous state, both pdfFile and extractedData are reset to null and an
error toast with a derived title and the error message is shown. -/
def handleParseError (st : AppPageState) (msg : String) :
    AppPageState × (String × String) :=
  ({ pdfFile := none, extractedData := none }, (errorTitleFor msg, msg))

/-! ## Frontend: UploadZone.jsx -/

/-- `handleDrop` of UploadZone.jsx: the returned value is the argument
of the resulting `onFileSelect` call, or `none` when no call is made;
only a first file of MIME type application/pdf is forwarded, anything
else is silently ignored. -/
def handleDrop (files : List FileObj) : Option FileObj :=
  match files with
  | f :: _ => if f.type = "application/pdf" then some f else none
  | [] => none

/-- `handleFileInput` of UploadZone.jsx: any non-empty selection
forwards its first file, with no MIME-type check. -/
def handleFileInput (files : List FileObj) : Option FileObj :=
  match files with
  | f :: _ => some f
  | [] => none

/-! ## Frontend: PDFViewer.jsx -/

/-- The PDFViewer component state: `numPages` is null until
`onDocumentLoadSuccess` fires. -/
structure ViewerState where
  pageNumber : Int
  scale : ℚ
  numPages : Option Int
deriving DecidableEq

/-- JavaScript `ToNumber` coercion applied by `Math.min` to the
`numPages` state value: `null` coerces to 0. -/
def jsToNumber (v : Option Int) : Int :=
  match v with
  | none => 0
  | some n => n

/-- `goToPrevPage` of PDFViewer.jsx. -/
def goToPrevPage (s : ViewerState) : ViewerState :=
  { s with pageNumber := max (s.pageNumber - 1) 1 }

/-- `goToNextPage` of PDFViewer.jsx: `Math.min(prev + 1, numPages)`
coerces a null `numPages` to 0. -/
def goToNextPage (s : ViewerState) : ViewerState :=
  { s with pageNumber := min (s.pageNumber + 1) (jsToNumber s.numPages) }

/-- `zoomIn` of PDFViewer.jsx. -/
def zoomIn (s : ViewerState) : ViewerState :=
  { s with scale := min (s.scale + 2/10) 2 }

/-- `zoomOut` of PDFViewer.jsx. -/
def zoomOut (s : ViewerState) : ViewerState :=
  { s with scale := max (s.scale - 2/10) (6/10) }

/-- `onDocumentLoadSuccess` of PDFViewer.jsx. -/
def onDocumentLoadSuccess (n : Int) (s : ViewerState) : ViewerState :=
  { s with numPages := some n }

inductive ViewerOp
  | prevPage
  | nextPage
  | zoomInOp
  | zoomOutOp
deriving DecidableEq

def stepViewer (s : ViewerState) : ViewerOp → ViewerState
  | ViewerOp.prevPage => goToPrevPage s
  | ViewerOp.nextPage => goToNextPage s
  | ViewerOp.zoomInOp => zoomIn s
  | ViewerOp.zoomOutOp => zoomOut s

def runViewer (s : ViewerState) (ops : List ViewerOp) : ViewerState :=
  ops.foldl stepViewer s

/-- The initial PDFViewer state from its useState initializers. -/
def initViewer : ViewerState :=
  { pageNumber := 1, scale := 1, numPages := none }

/-- The invariant asserted by the claim about the PDFViewer controls:
scale within its zoom bounds, page number at least 1, and once the page
count is loaded the page number within it (a loaded PDF has at least
one page). -/
def ViewerInv (s : ViewerState) : Prop :=
  (6 : ℚ)/10 ≤ s.scale ∧ s.scale ≤ 2 ∧ 1 ≤ s.pageNumber ∧
    ∀ n, s.numPages = some n → 1 ≤ n ∧ s.pageNumber ≤ n

/-- The scale part of the viewer invariant on its own: it needs no
assumption about the page-count state. -/
def ScaleInv (s : ViewerState) : Prop :=
  (6 : ℚ)/10 ≤ s.scale ∧ s.scale ≤ 2

/-! ## Frontend: ResumeForm.jsx as a heap model

JavaScript objects and arrays live on a heap and are passed by
reference, so mutation of the `data` prop would be observable as a write
to an existing heap cell.  The edit handlers of ResumeForm.jsx are
embedded against an explicit store: every object spread, array spread,
`filter` and `split` allocates fresh cells at the end of the store, so
the frame property (cells existing before the edit are untouched) is a
real statement about the embedded handlers, not a vacuity of purity. -/

/-- A JavaScript value stored in an object field or array slot. -/
inductive HVal
  | strv (s : String)
  | ref (a : Nat)
deriving DecidableEq

/-- A heap object: a plain object with ordered fields, or an array. -/
inductive HObj
  | obj (fields : List (String × HVal))
  | arr (elems : List HVal)
deriving DecidableEq

abbrev Store := List HObj

/-- Field lookup on an object. -/
def getField (fields : List (String × HVal)) (k : String) : Option HVal :=
  (fields.find? (fun p => decide (p.1 = k))).map Prod.snd

/-- The JavaScript spread-with-override `{...o, [k]: v}`: existing
fields keep their position, the overridden field its place, a new field
is appended. -/
def setField (fields : List (String × HVal)) (k : String) (v : HVal) :
    List (String × HVal) :=
  if fields.any (fun p => decide (p.1 = k)) then
    fields.map (fun p => if p.1 = k then (k, v) else p)
  else fields ++ [(k, v)]

/-- Dereference an object. -/
def getObj (st : Store) (a : Nat) : Option HObj := st[a]?

/-- Read the form-data object together with the four top-level
references; `none` when the heap shape does not match. -/
def readForm (st : Store) (fd : Nat) :
    Option (List (String × HVal)) :=
  match getObj st fd with
  | some (HObj.obj fields) => some fields
  | _ => none

/-- The edit operations exposed by the ResumeForm.jsx handlers. -/
inductive EditOp
  | updContact (field : String) (value : String)
  | updEducation (idx : Nat) (field : String) (value : String)
  | addEducation
  | delEducation (idx : Nat)
  | updExperience (idx : Nat) (field : String) (value : String)
  | updExperienceDesc (idx : Nat) (value : String)
  | addExperience
  | delExperience (idx : Nat)
  | updSkills (value : String)
deriving DecidableEq

/-- A fresh empty education entry, as allocated by `addEducation`. -/
def emptyEduFields : List (String × HVal) :=
  [("degree", HVal.strv ""), ("field_of_study", HVal.strv ""),
   ("institution", HVal.strv ""), ("graduation_year", HVal.strv "")]

/-- `updateContact` of ResumeForm.jsx: spread the contact object with
one field overridden, then spread the form-data object with the contact
reference replaced; two fresh allocations, no write to an existing cell. -/
def updContactH (st : Store) (fd : Nat) (field value : String) : Store × Nat :=
  match readForm st fd with
  | some fdFields =>
    match getField fdFields "contact" with
    | some (HVal.ref c) =>
      match getObj st c with
      | some (HObj.obj cf) =>
        let newContact := HObj.obj (setField cf field (HVal.strv value))
        let newFd := HObj.obj (setField fdFields "contact" (HVal.ref (st.length)))
        (st ++ [newContact, newFd], st.length + 1)
      | _ => (st, fd)
    | _ => (st, fd)
  | none => (st, fd)

/-- Shared shape of the per-entry list handlers: given the key of the
entry array and a function from the old element list to the new one
(which may reference cells about to be allocated at `st.length`,
offset by `extra` earlier allocations), allocate the new array and the
new form-data object. -/
def listEdit (st : Store) (fd : Nat) (key : String)
    (mk : Store → List HVal → Option (List HObj × List HVal)) : Store × Nat :=
  match readForm st fd with
  | some fdFields =>
    match getField fdFields key with
    | some (HVal.ref e) =>
      match getObj st e with
      | some (HObj.arr elems) =>
        match mk st elems with
        | some pr =>
          let newArrAddr := st.length + pr.1.length
          let newFd := HObj.obj (setField fdFields key (HVal.ref newArrAddr))
          (st ++ (pr.1 ++ [HObj.arr pr.2, newFd]), newArrAddr + 1)
        | none => (st, fd)
      | _ => (st, fd)
    | _ => (st, fd)
  | none => (st, fd)

/-- `updateEducation` of ResumeForm.jsx: copy the entry array, replace
one slot with a reference to a freshly spread entry object. -/
def updEducationH (st : Store) (fd : Nat) (idx : Nat) (field value : String) :
    Store × Nat :=
  listEdit st fd "education" (fun st₀ elems =>
    match elems[idx]? with
    | some (HVal.ref en) =>
      match getObj st₀ en with
      | some (HObj.obj ef) =>
        some ([HObj.obj (setField ef field (HVal.strv value))],
          elems.set idx (HVal.ref st₀.length))
      | _ => none
    | _ => none)

/-- `addEducation` of ResumeForm.jsx. -/
def addEducationH (st : Store) (fd : Nat) : Store × Nat :=
  listEdit st fd "education" (fun st₀ elems =>
    some ([HObj.obj emptyEduFields], elems ++ [HVal.ref st₀.length]))

/-- `removeEducation` of ResumeForm.jsx: `filter((_, i) => i !== index)`
drops the slot, sharing the surviving entry references. -/
def delEducationH (st : Store) (fd : Nat) (idx : Nat) : Store × Nat :=
  listEdit st fd "education" (fun _ elems => some ([], elems.eraseIdx idx))

/-- A fresh empty experience entry: `description: []` allocates an empty
array at `st.length`, the entry object follows it. -/
def emptyExpFields (descAddr : Nat) : List (String × HVal) :=
  [("job_title", HVal.strv ""), ("company", HVal.strv ""),
   ("start_date", HVal.strv ""), ("end_date", HVal.strv ""),
   ("description", HVal.ref descAddr)]

/-- `updateExperience` of ResumeForm.jsx for a string-valued field. -/
def updExperienceH (st : Store) (fd : Nat) (idx : Nat) (field value : String) :
    Store × Nat :=
  listEdit st fd "work_experience" (fun st₀ elems =>
    match elems[idx]? with
    | some (HVal.ref en) =>
      match getObj st₀ en with
      | some (HObj.obj ef) =>
        some ([HObj.obj (setField ef field (HVal.strv value))],
          elems.set idx (HVal.ref st₀.length))
      | _ => none
    | _ => none)

/-- `updateExperience` of ResumeForm.jsx for the description textarea:
`e.target.value.split('\n')` allocates a fresh string array which the
spread entry object then references. -/
def updExperienceDescH (st : Store) (fd : Nat) (idx : Nat) (value : String) :
    Store × Nat :=
  listEdit st fd "work_experience" (fun st₀ elems =>
    match elems[idx]? with
    | some (HVal.ref en) =>
      match getObj st₀ en with
      | some (HObj.obj ef) =>
        some ([HObj.arr ((strSplitChar '\n' value).map HVal.strv),
               HObj.obj (setField ef "description" (HVal.ref st₀.length))],
          elems.set idx (HVal.ref (st₀.length + 1)))
      | _ => none
    | _ => none)

/-- `addExperience` of ResumeForm.jsx. -/
def addExperienceH (st : Store) (fd : Nat) : Store × Nat :=
  listEdit st fd "work_experience" (fun st₀ elems =>
    some ([HObj.arr [], HObj.obj (emptyExpFields st₀.length)],
      elems ++ [HVal.ref (st₀.length + 1)]))

/-- `removeExperience` of ResumeForm.jsx. -/
def delExperienceH (st : Store) (fd : Nat) (idx : Nat) : Store × Nat :=
  listEdit st fd "work_experience" (fun _ elems => some ([], elems.eraseIdx idx))

/-- `updateSkills` of ResumeForm.jsx: split on commas, trim, drop empty
tokens, allocate the fresh skills array and the spread form-data object. -/
def updSkillsH (st : Store) (fd : Nat) (value : String) : Store × Nat :=
  match readForm st fd with
  | some fdFields =>
    let skillsArr :=
      ((strSplitChar ',' value).map strTrim).filter (fun s => !s.data.isEmpty)
    let newFd := HObj.obj (setField fdFields "skills" (HVal.ref st.length))
    (st ++ [HObj.arr (skillsArr.map HVal.strv), newFd], st.length + 1)
  | none => (st, fd)

/-- One edit-handler invocation of ResumeForm.jsx. -/
def stepEdit (st : Store) (fd : Nat) : EditOp → Store × Nat
  | EditOp.updContact field value => updContactH st fd field value
  | EditOp.updEducation idx field value => updEducationH st fd idx field value
  | EditOp.addEducation => addEducationH st fd
  | EditOp.delEducation idx => delEducationH st fd idx
  | EditOp.updExperience idx field value => updExperienceH st fd idx field value
  | EditOp.updExperienceDesc idx value => updExperienceDescH st fd idx value
  | EditOp.addExperience => addExperienceH st fd
  | EditOp.delExperience idx => delExperienceH st fd idx
  | EditOp.updSkills value => updSkillsH st fd value

/-- A sequence of UI edits applied to the form state. -/
def runEdits (st : Store) (fd : Nat) : List EditOp → Store × Nat
  | [] => (st, fd)
  | op :: ops =>
    let r := stepEdit st fd op
    runEdits r.1 r.2 ops

/-- A concrete heap holding a parsed resume, used to exercise the edit
handlers on explicit input. -/
def sampleStore : Store :=
  [HObj.obj [("first_name", HVal.strv "John"), ("last_name", HVal.strv "Doe"),
     ("email", HVal.strv "john@example.com"), ("phone", HVal.strv "555-123-4567"),
     ("city", HVal.strv ""), ("state", HVal.strv "")],
   HObj.obj [("degree", HVal.strv "BS"), ("field_of_study", HVal.strv "Computer Science"),
     ("institution", HVal.strv "MIT"), ("graduation_year", HVal.strv "2020")],
   HObj.arr [HVal.ref 1],
   HObj.arr [HVal.strv "Built things"],
   HObj.obj [("job_title", HVal.strv "Software Engineer"), ("company", HVal.strv "Acme Inc"),
     ("start_date", HVal.strv "2021-01"), ("end_date", HVal.strv ""),
     ("description", HVal.ref 3)],
   HObj.arr [HVal.ref 4],
   HObj.arr [HVal.strv "Python", HVal.strv "Go"],
   HObj.obj [("contact", HVal.ref 0), ("education", HVal.ref 2),
     ("work_experience", HVal.ref 5), ("skills", HVal.ref 6)]]

/-- A concrete sequence of form edits touching every category. -/
def sampleOps : List EditOp :=
  [EditOp.updContact "first_name" "Jane", EditOp.addEducation,
   EditOp.updSkills "Rust, Go", EditOp.delExperience 0]

/-! ## Splitting helper lemmas -/

theorem splitWhen_ne_nil {α : Type} (p : α → Bool) (l : List α) : splitWhen p l ≠ [] := by
  cases l with
  | nil => simp [splitWhen]
  | cons c cs =>
    simp only [splitWhen]
    by_cases h : p c
    · simp [h]
    · simp only [h]
      rcases hs : splitWhen p cs with _ | ⟨g, gs⟩ <;> simp

theorem mem_of_mem_splitWhen {α : Type} (p : α → Bool) :
    ∀ (l : List α) (g : List α) (c : α),
      g ∈ splitWhen p l → c ∈ g → c ∈ l ∧ p c = false := by
  intro l
  induction l with
  | nil =>
    intro g c hg hc
    simp [splitWhen] at hg
    subst hg
    simp at hc
  | cons a as ih =>
    intro g c hg hc
    simp only [splitWhen] at hg
    by_cases hp : p a
    · simp only [hp, if_true, List.mem_cons] at hg
      rcases hg with rfl | hg
      · simp at hc
      · rcases ih g c hg hc with ⟨h₁, h₂⟩
        exact ⟨List.mem_cons_of_mem _ h₁, h₂⟩
    · simp only [hp, if_false] at hg
      rcases hs : splitWhen p as with _ | ⟨g₀, gs⟩
      · exact absurd hs (splitWhen_ne_nil p as)
      · rw [hs] at hg
        rcases List.mem_cons.mp hg with rfl | hg
        · rcases List.mem_cons.mp hc with rfl | hc'
          · exact ⟨List.mem_cons_self _ _, by simpa using hp⟩
          · rcases ih g₀ c (hs ▸ List.mem_cons_self _ _) hc' with ⟨h₁, h₂⟩
            exact ⟨List.mem_cons_of_mem _ h₁, h₂⟩
        · rcases ih g c (hs ▸ List.mem_cons_of_mem _ hg) hc with ⟨h₁, h₂⟩
          exact ⟨List.mem_cons_of_mem _ h₁, h₂⟩

theorem mem_of_mem_joinWith (sep : List Char) :
    ∀ (gs : List (List Char)) (c : Char),
      c ∈ joinWith sep gs → c ∈ sep ∨ ∃ g, g ∈ gs ∧ c ∈ g := by
  intro gs
  induction gs with
  | nil => intro c hc; simp [joinWith] at hc
  | cons g gs ih =>
    intro c hc
    cases gs with
    | nil =>
      right
      exact ⟨g, List.mem_cons_self _ _, by simpa [joinWith] using hc⟩
    | cons g₂ gs₂ =>
      simp only [joinWith, List.append_assoc, List.mem_append] at hc
      rcases hc with hc | hc | hc
      · exact Or.inr ⟨g, List.mem_cons_self _ _, hc⟩
      · exact Or.inl hc
      · rcases ih c hc with h | ⟨g', hg', hc'⟩
        · exact Or.inl h
        · exact Or.inr ⟨g', List.mem_cons_of_mem _ hg', hc'⟩

/-! ## TextNormalizer lemmas -/

theorem mem_of_mem_dehyph : ∀ (l : List Char) (c : Char), c ∈ dehyph l → c ∈ l := by
  intro l
  induction l using dehyph.induct with
  | case1 => intro c hc; simp [dehyph] at hc
  | case2 d => intro c hc; simpa [dehyph] using hc
  | case3 a b rest h ih =>
    intro c hc
    rw [dehyph, if_pos h] at hc
    exact List.mem_cons_of_mem _ (List.mem_cons_of_mem _ (ih c hc))
  | case4 a b rest h ih =>
    intro c hc
    rw [dehyph, if_neg h] at hc
    rcases List.mem_cons.mp hc with rfl | hc'
    · exact List.mem_cons_self _ _
    · exact List.mem_cons_of_mem _ (ih c hc')

theorem mem_of_mem_collapseLine (g : List Char) (c : Char) (hc : c ∈ collapseLine g) :
    c = ' ' ∨ (c ∈ g ∧ c.isWhitespace = false) := by
  rcases mem_of_mem_joinWith [' '] _ c hc with h | ⟨g', hg', hc'⟩
  · exact Or.inl (by simpa using h)
  · rcases List.mem_filter.mp hg' with ⟨hg'', _⟩
    exact Or.inr (mem_of_mem_splitWhen Char.isWhitespace g g' c hg'' hc')

theorem mem_of_mem_normalizeChars (l : List Char) (c : Char) (hc : c ∈ normalizeChars l) :
    c = '\n' ∨ c = ' ' ∨ c ∈ l := by
  rcases mem_of_mem_joinWith ['\n'] _ c hc with h | ⟨g, hg, hc'⟩
  · exact Or.inl (by simpa using h)
  · rcases List.mem_map.mp hg with ⟨g₀, hg₀, rfl⟩
    rcases mem_of_mem_collapseLine g₀ c hc' with h | ⟨hmem, _⟩
    · exact Or.inr (Or.inl h)
    · rcases mem_of_mem_splitWhen _ (dehyph l) g₀ c hg₀ hmem with ⟨hmem', _⟩
      exact Or.inr (Or.inr (mem_of_mem_dehyph l c hmem'))

theorem isAlpha_false_of_isWhitespace (c : Char) (h : c.isWhitespace = true) :
    c.isAlpha = false := by
  simp only [Char.isWhitespace, Bool.or_eq_true, decide_eq_true_eq] at h
  rcases h with ((rfl | rfl) | rfl) | rfl <;> decide

theorem hasAlpha_normalize_false (s : String)
    (h : ∀ c ∈ s.data, c.isWhitespace = true) :
    hasAlpha (normalizeText s) = false := by
  rw [hasAlpha]
  by_contra hne
  rcases List.any_eq_true.mp (Bool.of_not_eq_false hne) with ⟨c, hc, halpha⟩
  rcases mem_of_mem_normalizeChars s.data c hc with rfl | rfl | hmem
  · exact absurd halpha (by decide)
  · exact absurd halpha (by decide)
  · rw [isAlpha_false_of_isWhitespace c (h c hmem)] at halpha
    exact absurd halpha (by decide)

/-! ## Frame lemmas for the ResumeForm heap model -/

theorem listEdit_extends (st : Store) (fd : Nat) (key : String)
    (mk : Store → List HVal → Option (List HObj × List HVal)) :
    ∃ tail, (listEdit st fd key mk).1 = st ++ tail := by
  unfold listEdit
  repeat' split
  all_goals first
    | exact ⟨_, rfl⟩
    | exact ⟨[], by simp⟩

theorem updContactH_extends (st : Store) (fd : Nat) (field value : String) :
    ∃ tail, (updContactH st fd field value).1 = st ++ tail := by
  unfold updContactH
  repeat' split
  all_goals first
    | exact ⟨_, rfl⟩
    | exact ⟨[], by simp⟩

theorem updSkillsH_extends (st : Store) (fd : Nat) (value : String) :
    ∃ tail, (updSkillsH st fd value).1 = st ++ tail := by
  unfold updSkillsH
  repeat' split
  all_goals first
    | exact ⟨_, rfl⟩
    | exact ⟨[], by simp⟩

theorem stepEdit_extends (st : Store) (fd : Nat) (op : EditOp) :
    ∃ tail, (stepEdit st fd op).1 = st ++ tail := by
  cases op with
  | updContact field value => exact updContactH_extends st fd field value
  | updEducation idx field value => exact listEdit_extends st fd "education" _
  | addEducation => exact listEdit_extends st fd "education" _
  | delEducation idx => exact listEdit_extends st fd "education" _
  | updExperience idx field value => exact listEdit_extends st fd "work_experience" _
  | updExperienceDesc idx value => exact listEdit_extends st fd "work_experience" _
  | addExperience => exact listEdit_extends st fd "work_experience" _
  | delExperience idx => exact listEdit_extends st fd "work_experience" _
  | updSkills value => exact updSkillsH_extends st fd value

theorem runEdits_extends :
    ∀ (ops : List EditOp) (st : Store) (fd : Nat),
      ∃ tail, (runEdits st fd ops).1 = st ++ tail := by
  intro ops
  induction ops with
  | nil => intro st fd; exact ⟨[], by simp [runEdits]⟩
  | cons op ops ih =>
    intro st fd
    simp only [runEdits]
    rcases stepEdit_extends st fd op with ⟨t₁, h₁⟩
    rcases ih (stepEdit st fd op).1 (stepEdit st fd op).2 with ⟨t₂, h₂⟩
    exact ⟨t₁ ++ t₂, by rw [h₂, h₁, List.append_assoc]⟩

/-! ## Deduplication lemmas for the SkillsExtractor -/

theorem dedupeCIAux_mem_find :
    ∀ (l seen : List String) (y : String),
      y ∈ dedupeCIAux seen l →
      lowerKey y ∉ seen ∧
        l.find? (fun t => decide (lowerKey t = lowerKey y)) = some y := by
  intro l
  induction l with
  | nil => intro seen y hy; simp [dedupeCIAux] at hy
  | cons t ts ih =>
    intro seen y hy
    rw [dedupeCIAux] at hy
    by_cases hm : lowerKey t ∈ seen
    · rw [if_pos hm] at hy
      rcases ih seen y hy with ⟨h₁, h₂⟩
      refine ⟨h₁, ?_⟩
      rw [List.find?_cons_of_neg, h₂]
      simp only [decide_eq_true_eq]
      exact fun he => h₁ (he ▸ hm)
    · rw [if_neg hm] at hy
      rcases List.mem_cons.mp hy with rfl | hy'
      · exact ⟨hm, by rw [List.find?_cons_of_pos]; simp⟩
      · rcases ih _ y hy' with ⟨h₁, h₂⟩
        have hne : lowerKey y ≠ lowerKey t :=
          fun he => h₁ (by rw [he]; exact List.mem_cons_self _ _)
        refine ⟨fun hc => h₁ (List.mem_cons_of_mem _ hc), ?_⟩
        rw [List.find?_cons_of_neg, h₂]
        simp only [decide_eq_true_eq]
        exact fun he => hne he.symm

theorem dedupeCIAux_pairwise :
    ∀ (l seen : List String),
      (dedupeCIAux seen l).Pairwise (fun a b => lowerKey a ≠ lowerKey b) := by
  intro l
  induction l with
  | nil => intro seen; simp [dedupeCIAux]
  | cons t ts ih =>
    intro seen
    rw [dedupeCIAux]
    by_cases hm : lowerKey t ∈ seen
    · rw [if_pos hm]; exact ih seen
    · rw [if_neg hm]
      refine List.Pairwise.cons ?_ (ih _)
      intro b hb
      rcases dedupeCIAux_mem_find ts _ b hb with ⟨h₁, _⟩
      exact fun he => h₁ (by rw [← he]; exact List.mem_cons_self _ _)

theorem dedupeCIAux_sublist :
    ∀ (l seen : List String), List.Sublist (dedupeCIAux seen l) l := by
  intro l
  induction l with
  | nil => intro seen; simp [dedupeCIAux]
  | cons t ts ih =>
    intro seen
    rw [dedupeCIAux]
    by_cases hm : lowerKey t ∈ seen
    · rw [if_pos hm]; exact List.Sublist.cons t (ih seen)
    · rw [if_neg hm]; exact List.Sublist.cons₂ t (ih _)

theorem dedupeCIAux_covers :
    ∀ (l seen : List String) (x : String), x ∈ l →
      lowerKey x ∈ seen ∨
        ∃ y, y ∈ dedupeCIAux seen l ∧ lowerKey y = lowerKey x := by
  intro l
  induction l with
  | nil => intro seen x hx; simp at hx
  | cons t ts ih =>
    intro seen x hx
    rw [dedupeCIAux]
    by_cases hm : lowerKey t ∈ seen
    · rw [if_pos hm]
      rcases List.mem_cons.mp hx with rfl | hx'
      · exact Or.inl hm
      · exact ih seen x hx'
    · rw [if_neg hm]
      rcases List.mem_cons.mp hx with rfl | hx'
      · exact Or.inr ⟨x, List.mem_cons_self _ _, rfl⟩
      · rcases ih (lowerKey t :: seen) x hx' with h | ⟨y, hy, he⟩
        · rcases List.mem_cons.mp h with he' | h'
          · exact Or.inr ⟨t, List.mem_cons_self _ _, he'.symm⟩
          · exact Or.inl h'
        · exact Or.inr ⟨y, List.mem_cons_of_mem _ hy, he⟩

/-! ## Invariant lemmas for the PDFViewer state -/

theorem stepViewer_numPages (s : ViewerState) (op : ViewerOp) :
    (stepViewer s op).numPages = s.numPages := by
  cases op <;> rfl

theorem stepViewer_inv (s : ViewerState) (op : ViewerOp) (h : ViewerInv s)
    (hop : op = ViewerOp.nextPage → s.numPages ≠ none) :
    ViewerInv (stepViewer s op) := by
  obtain ⟨hs₁, hs₂, hp, hn⟩ := h
  cases op with
  | prevPage =>
    refine ⟨hs₁, hs₂, le_max_right _ _, ?_⟩
    intro n heq
    rcases hn n heq with ⟨h₁, h₂⟩
    exact ⟨h₁, max_le (by linarith) h₁⟩
  | nextPage =>
    rcases hnp : s.numPages with _ | n
    · exact absurd hnp (hop rfl)
    · rcases hn n hnp with ⟨h₁, h₂⟩
      refine ⟨hs₁, hs₂, ?_, ?_⟩
      · simp only [stepViewer, goToNextPage, hnp, jsToNumber]
        exact le_min (by linarith) h₁
      · intro n' heq
        simp only [stepViewer, goToNextPage, hnp] at heq ⊢
        cases heq
        exact ⟨h₁, min_le_right _ _⟩
  | zoomInOp =>
    refine ⟨le_min (by linarith) (by norm_num), min_le_right _ _, hp, hn⟩
  | zoomOutOp =>
    refine ⟨le_max_right _ _, max_le (by linarith) (by norm_num), hp, hn⟩

theorem stepViewer_scale (s : ViewerState) (op : ViewerOp) (h : ScaleInv s) :
    ScaleInv (stepViewer s op) := by
  obtain ⟨h₁, h₂⟩ := h
  cases op with
  | prevPage => exact ⟨h₁, h₂⟩
  | nextPage => exact ⟨h₁, h₂⟩
  | zoomInOp => exact ⟨le_min (by linarith) (by norm_num), min_le_right _ _⟩
  | zoomOutOp => exact ⟨le_max_right _ _, max_le (by linarith) (by norm_num)⟩

theorem runViewer_scale (ops : List ViewerOp) (s : ViewerState) (h : ScaleInv s) :
    ScaleInv (runViewer s ops) := by
  induction ops generalizing s with
  | nil => exact h
  | cons op ops ih => exact ih (stepViewer s op) (stepViewer_scale s op h)

theorem runViewer_inv (ops : List ViewerOp) (s : ViewerState)
    (h : ViewerInv s) (hops : ViewerOp.nextPage ∈ ops → s.numPages ≠ none) :
    ViewerInv (runViewer s ops) := by
  induction ops generalizing s with
  | nil => exact h
  | cons op ops ih =>
    refine ih (stepViewer s op) (stepViewer_inv s op h ?_) ?_
    · intro he
      exact hops (by rw [he]; exact List.mem_cons_self _ _)
    · intro hmem
      rw [stepViewer_numPages]
      exact hops (List.mem_cons_of_mem _ hmem)

/-! ## Claim theorems -/

/-- C1 counterexample: a parse response whose contact has only a
non-empty last_name is classified PARTIAL by the count described in the
claim (any non-empty contact field counts) but NONE by the App.jsx
code, whose hasContact check reads only first_name, email and phone. -/
theorem c1_counterexample :
    claimedCompleteness
        ⟨⟨"", "Doe", "", "", "", ""⟩, [], [], [], [], "regex", [],
          Completeness.NONE⟩ = Completeness.PARTIAL ∧
      appCompleteness
        ⟨⟨"", "Doe", "", "", "", ""⟩, [], [], [], [], "regex", [],
          Completeness.NONE⟩ = Completeness.NONE := by
  constructor <;> decide

/-- C1 (amended): the calling layer classifies a parse response by
counting how many of the four categories have data, where the contact
category counts as present only when first_name, email or phone is
non-empty (last_name, city and state are ignored): a count of 0
classifies as NONE, 1 or 2 as PARTIAL, and 3 or 4 as FULL. -/
theorem c1_app_completeness_classification (r : ParseResult) :
    extractedCount r ≤ 4 ∧
      (appCompleteness r = Completeness.NONE ↔ extractedCount r = 0) ∧
      (appCompleteness r = Completeness.PARTIAL ↔
        (extractedCount r = 1 ∨ extractedCount r = 2)) ∧
      (appCompleteness r = Completeness.FULL ↔
        (extractedCount r = 3 ∨ extractedCount r = 4)) := by
  cases h₁ : hasContactData r <;> cases h₂ : hasEducationData r <;>
    cases h₃ : hasExperienceData r <;> cases h₄ : hasSkillsData r <;>
      · simp only [appCompleteness, extractedCount, h₁, h₂, h₃, h₄]
        decide

/-- C2: the transmitted parse request drops the extraction-method
selector — for every file and every selected method the FormData body
built by services/api.js `parseResume` contains exactly the file entry
and is identical whatever method App.jsx passes, because the
`parseResume` signature binds only the file argument. -/
theorem c2_parseResume_drops_method (f : FileObj) (m : String) :
    appParseRequest f m = [("file", FormValue.fileVal f)] ∧
      appParseRequest f m = appParseRequest f "regex" :=
  ⟨rfl, rfl⟩

/-- C3: on a fatal (abort-class) parse failure — HTTP 400 for
INVALID_INPUT or HTTP 422 for NOT_A_RESUME — the App.jsx catch block
resets both pdfFile and extractedData to null from any previous state,
and the toast surfaces the message built by services/api.js from the
failure detail (the detail itself, or the detail behind an Invalid file
preamble). -/
theorem c3_fatal_error_clears_state (st : AppPageState) (status : Nat)
    (detail : String) (hd : detail ≠ "") (hs : status = 400 ∨ status = 422) :
    (handleParseError st (apiErrorMessage status detail)).1.pdfFile = none ∧
      (handleParseError st (apiErrorMessage status detail)).1.extractedData = none ∧
      (handleParseError st (apiErrorMessage status detail)).2.2 =
        apiErrorMessage status detail ∧
      (apiErrorMessage status detail = "Invalid file: " ++ detail ∨
        apiErrorMessage status detail = detail) := by
  refine ⟨rfl, rfl, rfl, ?_⟩
  rcases hs with rfl | rfl <;> simp [apiErrorMessage, detailOrDefault, hd]

/-- C3 witness: a NOT_A_RESUME style 422 failure observed from a state
holding a file. -/
theorem c3_fatal_error_clears_state_witness :
    (handleParseError ⟨some ⟨"resume.pdf", "application/pdf"⟩, none⟩
        (apiErrorMessage 422 "The file doesn\x27t appear to be a resume")).1.pdfFile =
        none ∧
      (handleParseError ⟨some ⟨"resume.pdf", "application/pdf"⟩, none⟩
          (apiErrorMessage 422 "The file doesn\x27t appear to be a resume")).1.extractedData =
        none ∧
      (handleParseError ⟨some ⟨"resume.pdf", "application/pdf"⟩, none⟩
          (apiErrorMessage 422 "The file doesn\x27t appear to be a resume")).2.2 =
        apiErrorMessage 422 "The file doesn\x27t appear to be a resume" ∧
      (apiErrorMessage 422 "The file doesn\x27t appear to be a resume" =
          "Invalid file: " ++ "The file doesn\x27t appear to be a resume" ∨
        apiErrorMessage 422 "The file doesn\x27t appear to be a resume" =
          "The file doesn\x27t appear to be a resume") :=
  c3_fatal_error_clears_state ⟨some ⟨"resume.pdf", "application/pdf"⟩, none⟩ 422
    "The file doesn\x27t appear to be a resume" (by decide) (Or.inr rfl)

/-- C4: the regex extraction path is a deterministic function of its
input — two pipeline invocations on the same input text with the regex
method produce equal results, whatever state the LLM collaborator is in
on either invocation. -/
theorem c4_regex_path_deterministic (cy : Nat) (o₁ o₂ : ParseResult)
    (input : String) (r₁ r₂ : Except PipelineError ParseResult × List Stage)
    (h₁ : runPipeline cy Method.regex o₁ input = r₁)
    (h₂ : runPipeline cy Method.regex o₂ input = r₂) : r₁ = r₂ := by
  subst h₁
  subst h₂
  rfl

/-- C4 witness: two invocations on the same text with different LLM
collaborator states coincide. -/
theorem c4_regex_path_deterministic_witness :
    runPipeline 2026 Method.regex
        ⟨⟨"a", "b", "c", "d", "e", "f"⟩, [], [], ["x"], [], "llm", [],
          Completeness.FULL⟩ "John" =
      runPipeline 2026 Method.regex
        ⟨⟨"", "", "", "", "", ""⟩, [], [], [], [], "", [],
          Completeness.NONE⟩ "John" :=
  c4_regex_path_deterministic 2026 _ _ "John" _ _ rfl rfl

/-- C5: an input that is empty or whitespace-only makes the pipeline
fail with INVALID_INPUT during normalization, for either method; the
stage trace stops at NORMALIZING, so no extractor (and not the LLM
adapter) is ever invoked. -/
theorem c5_invalid_input_before_extractors (cy : Nat) (method : Method)
    (llmOut : ParseResult) (input : String)
    (h : ∀ c ∈ input.data, c.isWhitespace = true) :
    runPipeline cy method llmOut input =
        (Except.error PipelineError.INVALID_INPUT, [Stage.NORMALIZING]) ∧
      Stage.CONTACT_EXTRACTION ∉ (runPipeline cy method llmOut input).2 ∧
      Stage.EDUCATION_EXTRACTION ∉ (runPipeline cy method llmOut input).2 ∧
      Stage.EXPERIENCE_EXTRACTION ∉ (runPipeline cy method llmOut input).2 ∧
      Stage.SKILLS_EXTRACTION ∉ (runPipeline cy method llmOut input).2 ∧
      Stage.LLM_EXTRACTING ∉ (runPipeline cy method llmOut input).2 := by
  have ha := hasAlpha_normalize_false input h
  have heq : runPipeline cy method llmOut input =
      (Except.error PipelineError.INVALID_INPUT, [Stage.NORMALIZING]) := by
    simp [runPipeline, ha]
  refine ⟨heq, ?_, ?_, ?_, ?_, ?_⟩ <;> rw [heq] <;> decide

/-- C5 witness: a whitespace-only input on the regex path. -/
theorem c5_invalid_input_before_extractors_witness :
    runPipeline 2026 Method.regex
        ⟨⟨"", "", "", "", "", ""⟩, [], [], [], [], "", [],
          Completeness.NONE⟩ " \n  " =
      (Except.error PipelineError.INVALID_INPUT, [Stage.NORMALIZING]) :=
  (c5_invalid_input_before_extractors 2026 Method.regex _ " \n  " (by decide)).1

/-- C6: a 4-digit year matched for graduation_year is accepted exactly
when it lies in the range 1950 to currentYear + 10; an out-of-range
match leaves the field empty and records a FIELD_EXTRACTION_GAP
warning, and the accepted value is always the matched string itself,
never a clamped or corrected one. -/
theorem c6_graduation_year_range (cy : Nat) (text ystr : String)
    (h : findFourDigitYear text = some ystr) :
    ((1950 ≤ (strToNat ystr).getD 0 ∧ (strToNat ystr).getD 0 ≤ cy + 10) →
        extractGraduationYear cy text = (ystr, [])) ∧
      (¬(1950 ≤ (strToNat ystr).getD 0 ∧ (strToNat ystr).getD 0 ≤ cy + 10) →
        extractGraduationYear cy text =
          ("", [WarningKind.FIELD_EXTRACTION_GAP "graduation_year"])) := by
  constructor <;> intro hy
  · have hyr : yearInRange cy ((strToNat ystr).getD 0) = true := by
      unfold yearInRange
      simp [hy.1, hy.2]
    simp [extractGraduationYear, h, hyr]
  · cases hyr : yearInRange cy ((strToNat ystr).getD 0) with
    | false => simp [extractGraduationYear, h, hyr]
    | true =>
      refine absurd ?_ hy
      unfold yearInRange at hyr
      simpa using hyr

/-- C6 witness: the year 1850 is rejected with a warning and the field
left empty. -/
theorem c6_graduation_year_range_witness :
    extractGraduationYear 2026 "BS MIT 1850" =
      ("", [WarningKind.FIELD_EXTRACTION_GAP "graduation_year"]) :=
  (c6_graduation_year_range 2026 "BS MIT 1850" "1850" (by decide)).2 (by decide)

/-- C7: the SkillsExtractor output never contains two entries equal
under case-insensitive comparison; it is a subsequence of the token
stream (original order, original casing), every surviving entry is the
first token of its case-insensitive class, and every token class is
represented. -/
theorem c7_skills_no_ci_duplicates (s : String) :
    (skillsExtract s).Pairwise (fun a b => lowerKey a ≠ lowerKey b) ∧
      List.Sublist (skillsExtract s) (tokenizeSkills s) ∧
      (∀ y ∈ skillsExtract s,
        (tokenizeSkills s).find? (fun t => decide (lowerKey t = lowerKey y)) =
          some y) ∧
      (∀ x ∈ tokenizeSkills s,
        ∃ y, y ∈ skillsExtract s ∧ lowerKey y = lowerKey x) := by
  refine ⟨dedupeCIAux_pairwise _ [], dedupeCIAux_sublist _ [], ?_, ?_⟩
  · intro y hy
    exact (dedupeCIAux_mem_find (tokenizeSkills s) [] y hy).2
  · intro x hx
    rcases dedupeCIAux_covers (tokenizeSkills s) [] x hx with h | h
    · simp at h
    · exact h

/-- C7 witness: in "Python, Go, python" the surviving entry for the
python class is the first-seen casing. -/
theorem c7_skills_no_ci_duplicates_witness :
    (tokenizeSkills "Python, Go, python").find?
        (fun t => decide (lowerKey t = lowerKey "Python")) = some "Python" :=
  (c7_skills_no_ci_duplicates "Python, Go, python").2.2.1 "Python" (by decide)

/-- C8: no sequence of ResumeForm edit handlers writes to a heap cell
that existed before the edits — every handler only allocates fresh
objects and arrays — so the parsed-data object graph passed in as the
data prop is unchanged by any sequence of UI edits. -/
theorem c8_resumeForm_preserves_original (st : Store) (fd : Nat)
    (ops : List EditOp) (i : Nat) (h : i < st.length) :
    ((runEdits st fd ops).1)[i]? = st[i]? := by
  rcases runEdits_extends ops st fd with ⟨tail, ht⟩
  rw [ht]
  exact List.getElem?_append_left h

/-- C8 witness: after contact, education, skills and experience edits
on a concrete parsed-resume heap, the original contact object is
untouched. -/
theorem c8_resumeForm_preserves_original_witness :
    ((runEdits sampleStore 7 sampleOps).1)[0]? = sampleStore[0]? :=
  c8_resumeForm_preserves_original sampleStore 7 sampleOps 0 (by decide)

/-- C9 counterexample: from the initial viewer state (pageNumber 1,
scale 1.0, numPages null), firing goToNextPage before the document has
loaded sets pageNumber to 0 — `Math.min(2, null)` coerces null to 0 —
violating the claimed lower bound of 1. -/
theorem c9_counterexample :
    (runViewer initViewer [ViewerOp.nextPage]).pageNumber = 0 ∧
      ¬(1 ≤ (runViewer initViewer [ViewerOp.nextPage]).pageNumber) := by
  constructor <;> decide

/-- C9 (amended): from any state satisfying the invariant, every
sequence of the four control operations keeps scale within 0.6 and 2.0
unconditionally, and keeps pageNumber at least 1 (and at most a loaded
numPages) provided goToNextPage fires only once numPages has been set;
a goToNextPage before that instead drives pageNumber to 0. -/
theorem c9_viewer_invariant_preserved (ops : List ViewerOp) (s : ViewerState)
    (h : ViewerInv s) :
    ScaleInv (runViewer s ops) ∧
      ((ViewerOp.nextPage ∈ ops → s.numPages ≠ none) →
        ViewerInv (runViewer s ops)) :=
  ⟨runViewer_scale ops s ⟨h.1, h.2.1⟩, fun hops => runViewer_inv ops s h hops⟩

/-- C9 witness: zooming and paging on a loaded three-page document
keeps the invariant. -/
theorem c9_viewer_invariant_preserved_witness :
    ScaleInv (runViewer ⟨1, 1, some 3⟩
        [ViewerOp.zoomInOp, ViewerOp.nextPage, ViewerOp.prevPage]) ∧
      ((ViewerOp.nextPage ∈
            [ViewerOp.zoomInOp, ViewerOp.nextPage, ViewerOp.prevPage] →
          (⟨1, 1, some 3⟩ : ViewerState).numPages ≠ none) →
        ViewerInv (runViewer ⟨1, 1, some 3⟩
          [ViewerOp.zoomInOp, ViewerOp.nextPage, ViewerOp.prevPage])) := by
  apply c9_viewer_invariant_preserved
  refine ⟨by norm_num, by norm_num, by norm_num, ?_⟩
  intro n hn
  injection hn with hn'
  subst hn'
  exact ⟨by norm_num, by norm_num⟩

/-- C10: a drag-and-drop forwards a file to onFileSelect exactly when
the first dropped file has MIME type application/pdf (anything else is
silently ignored with no call), while the file-input dialog forwards
the first file of any non-empty selection with no MIME check. -/
theorem c10_uploadZone_drop_vs_input (files : List FileObj) (f : FileObj) :
    (handleDrop files = some f ↔
        files.head? = some f ∧ f.type = "application/pdf") ∧
      handleFileInput files = files.head? := by
  cases files with
  | nil => simp [handleDrop, handleFileInput]
  | cons g gs =>
    refine ⟨?_, rfl⟩
    by_cases h : g.type = "application/pdf"
    · simp only [handleDrop, if_pos h, List.head?_cons, Option.some.injEq]
      exact ⟨fun he => ⟨he, by rw [← he]; exact h⟩, fun hp => hp.1⟩
    · simp only [handleDrop, if_neg h, List.head?_cons, Option.some.injEq]
      constructor
      · intro he
        exact absurd he (by simp)
      · rintro ⟨rfl, h₂⟩
        exact absurd h₂ h

end ResumeParser
